import Mathlib

/-!
Verification development for the vike-plugin-sitemap route-resolution engine.

Strings are modelled as `List Char`; JavaScript string operations
(`split`, `startsWith`, `endsWith`, `startsWith`-based markers, the
`/\/+/g` slash-collapsing replace, `trim`) are embedded as executable
functions on `List Char`.  File systems are modelled as finite trees
(`FTree`); `fs.readdir(dir, { withFileTypes: true, recursive: true })`
is embedded as a recursive enumeration of the tree.  Console output
(`console.warn` / `console.log`) is modelled as an explicit list of
emitted messages, and `throw` as `Except.error`.

The authoritative implementation is the current one
(`src/unnamed/part_002`, second document: `getResolvedPages`,
`resolvedPagesSorter`, `DuplicateHandler`, `getSitemapEntries`,
`generateSitemapContent`).  The legacy per-directory walker of
`src/unnamed/part_000` (suffix page marker `<name>+Page.<ext>`) and the
`part_003` sorter/normalizer are embedded separately where claims cite
them.
-/

namespace VikeSitemap

/-- JavaScript `s.startsWith(c)` for a one-character prefix. -/
def segStartsWith (c : Char) : List Char → Bool
  | [] => false
  | a :: _ => a = c

/-- JavaScript `s.endsWith(c)` for a one-character suffix. -/
def segEndsWith (c : Char) (s : List Char) : Bool :=
  match s.getLast? with
  | some a => a = c
  | none => false

/-- The literal segment `"index"`. -/
def indexSeg : List Char := ['i', 'n', 'd', 'e', 'x']

/-- The literal segment `"pages"`. -/
def pagesSeg : List Char := ['p', 'a', 'g', 'e', 's']

/-- `\/+/g → "/"`: collapse every run of consecutive slashes to a single
slash, as `.replace(/\/+/g, '/')` does.  `prevSlash` records whether the
previously emitted character was a slash. -/
def collapseAux : Bool → List Char → List Char
  | _, [] => []
  | prevSlash, c :: rest =>
    if c = '/' then
      if prevSlash then collapseAux true rest
      else '/' :: collapseAux true rest
    else c :: collapseAux false rest

/-- `s.replace(/\/+/g, '/')`. -/
def collapseSlashes (s : List Char) : List Char := collapseAux false s

/-- `${baseUrl}/${path}.replace(/\/+/g, '/')` — `PathUtils.normalizeUrl`
of `src/unnamed/part_003` and the inline loc construction of the legacy
walkers. -/
def normalizeUrl (baseUrl path : List Char) : List Char :=
  collapseSlashes (baseUrl ++ '/' :: path)

/-- `true` when the string contains two consecutive `'/'` characters. -/
def hasDoubleSlash : List Char → Bool
  | [] => false
  | [_] => false
  | a :: b :: rest => (a = '/' && b = '/') || hasDoubleSlash (b :: rest)

/-- Rejection reasons of the path classifier (`ResolvedPage.resolution`
when not a string). -/
inductive RejectReason where
  | specialFolder
  | SSGUnhandled
deriving DecidableEq, Repr

/-- `ResolvedPage["resolution"]`: either the resolved URL path (a string
in the source) or a rejection. -/
inductive Resolution where
  | accepted (urlPath : List Char)
  | rejected (reason : RejectReason)
deriving DecidableEq, Repr

/-- What the classifier loop body of `resolve` (src/unnamed/part_002,
`getResolvedPages`) does with one directory segment, with the source's
check order: `index` / `pages` / parenthesized are skipped
(`continue`), `_`-prefixed returns `specialFolder`, `@`-prefixed
returns `SSGUnhandled`, anything else is kept. -/
inductive SegAction where
  | skip
  | rejectSpecial
  | rejectSSG
  | keep
deriving DecidableEq, Repr

/-- The per-segment decision of `resolve`, checks in source order. -/
def segAction (seg : List Char) : SegAction :=
  if seg = indexSeg then .skip
  else if seg = pagesSeg then .skip
  else if segStartsWith '(' seg && segEndsWith ')' seg then .skip
  else if segStartsWith '_' seg then .rejectSpecial
  else if segStartsWith '@' seg then .rejectSSG
  else .keep

/-- The `for (const segment of spSegments)` loop of `resolve`
(src/unnamed/part_002), accumulating `segmentsOut`; on exhaustion:
`out = segmentsOut.join("/") + "/"`, returned as
`segmentsOut.length ? "/" + out : out`. -/
def resolveLoop : List (List Char) → List (List Char) → Resolution
  | [], acc =>
    let out := List.intercalate ['/'] acc ++ ['/']
    if acc.length ≠ 0 then .accepted ('/' :: out) else .accepted out
  | seg :: rest, acc =>
    match segAction seg with
    | .skip => resolveLoop rest acc
    | .rejectSpecial => .rejected .specialFolder
    | .rejectSSG => .rejected .SSGUnhandled
    | .keep => resolveLoop rest (acc ++ [seg])

/-- `resolve()` of `getResolvedPages`: classify the ordered directory
segments of a page file. -/
def resolveSegments (spSegments : List (List Char)) : Resolution :=
  resolveLoop spSegments []

mutual
/-- A file-system tree: the model of the scanned pages directory
(mutual with `FForest`, the ordered children of a directory). -/
inductive FTree where
  | file (name : List Char)
  | dir (name : List Char) (children : FForest)
inductive FForest where
  | nil
  | cons (t : FTree) (rest : FForest)
end

/-- Build a forest from a list of trees. -/
def forestOf : List FTree → FForest :=
  fun l => l.foldr .cons .nil

mutual
/-- `fs.readdir(rootDir, { withFileTypes: true, recursive: true })`:
every entry of the tree together with its `parentPath`.  Directory
entries are listed too (the source filters by name only).  The
enumeration is depth-first in child order; the pipeline sorts before any
order-sensitive step, so only the set of entries matters to the theorems
below. -/
def readdirTree (parentPath : List Char) : FTree → List (List Char × List Char)
  | .file n => [(parentPath, n)]
  | .dir n cs => (parentPath, n) :: readdirRec (parentPath ++ '/' :: n) cs
def readdirRec (parentPath : List Char) : FForest → List (List Char × List Char)
  | .nil => []
  | .cons t rest => readdirTree parentPath t ++ readdirRec parentPath rest
end

/-- `isIndexable`: `dir.name.startsWith("+Page.")`. -/
def isIndexable (name : List Char) : Bool :=
  ['+', 'P', 'a', 'g', 'e', '.'].isPrefixOf name

/-- `ResolvedPage` of the current implementation. -/
structure ResolvedPage where
  shortPath : List Char
  spSegments : List (List Char)
  resolution : Resolution
deriving DecidableEq, Repr

/-- JavaScript `shortPath.split("/")` (split on every slash, keeping
empty pieces; `"".split("/") = [""]`). -/
def splitSlashAux (cur : List Char) : List Char → List (List Char)
  | [] => [cur.reverse]
  | c :: rest =>
    if c = '/' then cur.reverse :: splitSlashAux [] rest
    else splitSlashAux (c :: cur) rest

/-- JavaScript `s.split("/")`. -/
def splitSlash (s : List Char) : List (List Char) := splitSlashAux [] s

/-- `getResolvedPages` (src/unnamed/part_002): enumerate the tree
recursively, keep entries whose name starts with `+Page.`, and classify
each by its directory segments
(`shortPath = parentPath.substring(rootDir.length)`,
`spSegments = shortPath.split("/").filter(Boolean)`). -/
def getResolvedPages (rootDir : List Char) (tree : FForest) : List ResolvedPage :=
  ((readdirRec rootDir tree).filter (fun e => isIndexable e.2)).map fun e =>
    let shortPath := e.1.drop rootDir.length
    let spSegments := (splitSlash shortPath).filter (fun s => s ≠ [])
    { shortPath := shortPath, spSegments := spSegments,
      resolution := resolveSegments spSegments }

/-- Model of `String.prototype.localeCompare` as a sign value.  On the
inputs exercised by the proofs below (lowercase ASCII segments) the
locale-aware collation coincides with code-point order. -/
def localeCompareInt : List Char → List Char → Int
  | [], [] => 0
  | [], _ :: _ => -1
  | _ :: _, [] => 1
  | a :: as, b :: bs =>
    if a = b then localeCompareInt as bs
    else if a.toNat < b.toNat then -1 else 1

/-- The shared comparator-loop shape of `resolvedPagesSorter`
(src/unnamed/part_002, on `spSegments`, index marker `"index"`) and
`sortSitemapEntries` (src/unnamed/part_003, on `loc.split('/')
.filter(Boolean)`, index marker `""`): walk segments left to right;
an index-marker final segment sorts first, then `@`-prefixed segments,
then `localeCompare`; on full equality the shorter path sorts first. -/
def cmpSegsWith (isIdx : List Char → Bool) : List (List Char) → List (List Char) → Int
  | a :: as, b :: bs =>
    if as.length = 0 && isIdx a then -1
    else if bs.length = 0 && isIdx b then 1
    else if segStartsWith '@' a && !(segStartsWith '@' b) then -1
    else if segStartsWith '@' b && !(segStartsWith '@' a) then 1
    else if a ≠ b then localeCompareInt a b
    else cmpSegsWith isIdx as bs
  | as, bs => (as.length : Int) - (bs.length : Int)

/-- `resolvedPagesSorter` (src/unnamed/part_002): comparator over
`ResolvedPage.spSegments` with index marker `"index"`. -/
def resolvedPagesSorter (a b : ResolvedPage) : Int :=
  cmpSegsWith (fun s => s = indexSeg) a.spSegments b.spSegments

/-- Stable insertion into a comparator-sorted list: the new element goes
before the first element that compares strictly greater. -/
def insertCmp (cmp : α → α → Int) (x : α) : List α → List α
  | [] => [x]
  | y :: ys => if cmp x y < 0 then x :: y :: ys else y :: insertCmp cmp x ys

/-- Stable comparator sort (JavaScript `Array.prototype.sort` is stable;
for a consistent comparator any stable sort produces the same list, and
the theorems below only sort inputs on which the comparator is
consistent and strict). -/
def sortByCmp (cmp : α → α → Int) (l : List α) : List α :=
  l.foldl (fun acc x => insertCmp cmp x acc) []

/-- A sitemap entry.  `lastmod` comes from `fs.stat` (external I/O, the
Metadata Enricher's recoverable-stat path); the embedding leaves it
`none`, which the pipeline treats uniformly — none of the route
resolution, duplicate handling, sorting or merging logic reads it. -/
structure SitemapEntry where
  loc : List Char
  lastmod : Option (List Char) := none
  changefreq : Option (List Char) := none
  priority : Option (List Char) := none
deriving DecidableEq, Repr

/-- `clashingPathsResolution` values. -/
inductive ClashingPathsResolutionType where
  | ignore
  | remove
  | error
deriving DecidableEq, Repr

/-- The `debug` option block. -/
structure DebugOptions where
  printRoutes : Bool
  printIgnored : Bool
deriving DecidableEq, Repr

/-- `Required<SitemapPluginOptions>`, restricted to the fields the
route-resolution pipeline reads (`pagesDir`/`outputDir`/`filename` feed
the out-of-scope disk I/O; `formatDate` only formats the external stat
result; `robots` is consumed by the robots generator below). -/
structure SitemapOptions where
  baseUrl : List Char
  defaultChangefreq : List Char
  defaultPriority : List Char
  customEntries : List SitemapEntry
  clashingPathsResolution : ClashingPathsResolutionType
  debug : DebugOptions

/-- `ResolvedPageApprouved`: a resolved page whose `resolution` is a
string (the accepted URL path).  The source narrows by a type cast after
filtering; the embedding narrows by `filterApproved` below. -/
structure ResolvedPageApprouved where
  shortPath : List Char
  resolution : List Char
deriving DecidableEq, Repr

/-- `⚠️  Sitemap : Cannot generate SSG path yet for: ${shortPath}`. -/
def ssgWarnMessage (shortPath : List Char) : List Char :=
  "⚠️  Sitemap : Cannot generate SSG path yet for: ".data ++ shortPath

/-- The `.filter` step of the current `getSitemapEntries`: keep pages
whose resolution is a string; when `debug.printIgnored` is set, an
`SSGUnhandled` rejection is logged (a `specialFolder` rejection falls
through the `switch` silently). -/
def filterApproved (printIgnored : Bool) :
    List ResolvedPage → List ResolvedPageApprouved × List (List Char)
  | [] => ([], [])
  | p :: rest =>
    let (as, log) := filterApproved printIgnored rest
    match p.resolution with
    | .accepted u => (⟨p.shortPath, u⟩ :: as, log)
    | .rejected r =>
      if printIgnored && (r = .SSGUnhandled) then (as, ssgWarnMessage p.shortPath :: log)
      else (as, log)

/-- One step of `DuplicateHandler.groupBy`'s `reduce`: append `x` to
the group holding its key, or open a new group at the end. -/
def addToGroups (key : α → List Char) (x : α) : List (List α) → List (List α)
  | [] => [[x]]
  | g :: gs =>
    match g.head? with
    | some y => if key y = key x then (g ++ [x]) :: gs else g :: addToGroups key x gs
    | none => g :: addToGroups key x gs

/-- `DuplicateHandler.groupBy` as the `reduce` it is written as: each
item is appended to its key's group, a new key opening a new group at
the end (`Object.values` of a string-keyed object is in key-insertion
order). -/
def groupByKey (key : α → List Char) (l : List α) : List (List α) :=
  l.foldl (fun acc x => addToGroups key x acc) []

/-- `getResolutionMessage` of `DuplicateHandler.resolveDuplicate`. -/
def resolutionMessage : ClashingPathsResolutionType → List Char
  | .ignore => "Still adding to sitemap.".data
  | .remove => "Removed from sitemap.".data
  | .error => "Cancelling.".data

/-- `getMessage` of `DuplicateHandler.resolveDuplicate`. -/
def clashMessage (policy : ClashingPathsResolutionType)
    (clashingPaths : List ResolvedPageApprouved) : List Char :=
  "⚠️  Sitemap : Routes definition clash found -> [".data
    ++ List.intercalate ", ".data (clashingPaths.map (·.shortPath))
    ++ "]: ".data ++ resolutionMessage policy

/-- `DuplicateHandler.resolveDuplicate`: `message` starts as `""` and is
only filled (and warned) when `debug.printRoutes` is set; `ignore` keeps
`[clashingPaths[0]]`, `remove` keeps `[]`, `error` throws
`message ?? getMessage()` — since `message` is a string (possibly
empty), never `null`/`undefined`, the `??` always yields `message`
itself. -/
def resolveDuplicate (options : SitemapOptions)
    (clashingPaths : List ResolvedPageApprouved) :
    Except (List Char) (List ResolvedPageApprouved × List (List Char)) :=
  let message :=
    if options.debug.printRoutes then
      clashMessage options.clashingPathsResolution clashingPaths
    else []
  let log := if options.debug.printRoutes then [message] else []
  match options.clashingPathsResolution with
  | .ignore => .ok (clashingPaths.take 1, log)
  | .remove => .ok ([], log)
  | .error => .error message

/-- The `.flatMap` over groups in the current `getSitemapEntries`:
groups of size 1 pass through, larger groups go through
`resolveDuplicate`; a thrown error aborts the whole pass. -/
def resolveGroups (options : SitemapOptions) :
    List (List ResolvedPageApprouved) →
    Except (List Char) (List ResolvedPageApprouved × List (List Char))
  | [] => .ok ([], [])
  | g :: gs =>
    match (if 1 < g.length then resolveDuplicate options g else .ok (g, [])) with
    | .error m => .error m
    | .ok (kept, log₁) =>
      match resolveGroups options gs with
      | .error m => .error m
      | .ok (rest, log₂) => .ok (kept ++ rest, log₁ ++ log₂)

/-- The entry construction of the current `getSitemapEntries`:
`loc = options.baseUrl + resolution`, `lastmod` from the external stat
(modelled `none`), `changefreq`/`priority` from the defaults. -/
def buildEntry (options : SitemapOptions) (p : ResolvedPageApprouved) : SitemapEntry :=
  { loc := options.baseUrl ++ p.resolution
    lastmod := none
    changefreq := some options.defaultChangefreq
    priority := some options.defaultPriority }

/-- `getSitemapEntries` (current variant, src/unnamed/part_002): resolve
the tree, sort with `resolvedPagesSorter`, filter rejections (logging
`SSGUnhandled` when `printIgnored`), group by resolved URL path, resolve
duplicates per policy, and build the entries.  Returns the entries and
the emitted warnings, or the thrown error. -/
def getSitemapEntries (options : SitemapOptions) (rootDir : List Char)
    (tree : FForest) :
    Except (List Char) (List SitemapEntry × List (List Char)) :=
  let sorted := sortByCmp resolvedPagesSorter (getResolvedPages rootDir tree)
  let (approved, ignoreLog) := filterApproved options.debug.printIgnored sorted
  match resolveGroups options (groupByKey (·.resolution) approved) with
  | .error m => .error m
  | .ok (withoutDuplicates, dupLog) =>
    .ok (withoutDuplicates.map (buildEntry options), ignoreLog ++ dupLog)

/-- `⚠️  Sitemap : Duplicate custom URL "${loc}" - route already defined
(custom entry == ${existingPath})`. -/
def customDupMessage (loc existingPath : List Char) : List Char :=
  "⚠️  Sitemap : Duplicate custom URL \"".data ++ loc
    ++ "\" - route already defined (custom entry == ".data ++ existingPath ++ ")".data

/-- `Map.get` over the embedded `existingLocations` map. -/
def lookupLoc : List (List Char × List Char) → List Char → Option (List Char)
  | [], _ => none
  | (k, v) :: rest, q => if k = q then some v else lookupLoc rest q

/-- The custom-entry loop of the current `generateSitemapContent`
(src/unnamed/part_002): `existingLocations` starts as the given map, a
clashing custom entry is reported and skipped, a fresh one is recorded
under the value `'custom entry'` and pushed.  Returns the kept custom
entries (in order) and the warnings. -/
def mergeCustomLoop (existingLocations : List (List Char × List Char)) :
    List SitemapEntry → List SitemapEntry × List (List Char)
  | [] => ([], [])
  | c :: cs =>
    match lookupLoc existingLocations c.loc with
    | some v =>
      let (es, log) := mergeCustomLoop existingLocations cs
      (es, customDupMessage c.loc v :: log)
    | none =>
      let (es, log) := mergeCustomLoop ((c.loc, "custom entry".data) :: existingLocations) cs
      (c :: es, log)

/-- The entry list (and warning log) that the current
`generateSitemapContent` serializes: the discovered entries followed by
the merged custom entries.  In this variant `existingLocations` is a
fresh empty `Map` and `getSitemapEntries` never writes into it, so the
custom-entry duplicate check only sees previously merged custom
entries. -/
def generateSitemapEntriesLog (options : SitemapOptions) (rootDir : List Char)
    (tree : FForest) :
    Except (List Char) (List SitemapEntry × List (List Char)) :=
  match getSitemapEntries options rootDir tree with
  | .error m => .error m
  | .ok (entries, log) =>
    let (kept, mlog) := mergeCustomLoop [] options.customEntries
    .ok (entries ++ kept, log ++ mlog)

/-- One `<url>` element, field order `loc`, `lastmod`, `changefreq`,
`priority`, each optional field emitted only when present. -/
def xmlEntry (e : SitemapEntry) : List Char :=
  "  <url>\n    <loc>".data ++ e.loc ++ "</loc>\n".data
    ++ (match e.lastmod with
        | some l => "    <lastmod>".data ++ l ++ "</lastmod>\n".data
        | none => [])
    ++ (match e.changefreq with
        | some c => "    <changefreq>".data ++ c ++ "</changefreq>\n".data
        | none => [])
    ++ (match e.priority with
        | some p => "    <priority>".data ++ p ++ "</priority>\n".data
        | none => [])
    ++ "  </url>".data

/-- `generateSitemapContent` (current variant): the XML document, or the
thrown error (in which case no sitemap output exists at all). -/
def generateSitemapContent (options : SitemapOptions) (rootDir : List Char)
    (tree : FForest) : Except (List Char) (List Char × List (List Char)) :=
  match generateSitemapEntriesLog options rootDir tree with
  | .error m => .error m
  | .ok (entries, log) =>
    .ok ("<?xml version=\"1.0\" encoding=\"UTF-8\"?>\n<urlset xmlns=\"http://www.sitemaps.org/schemas/sitemap/0.9\">\n".data
          ++ List.intercalate ['\n'] (entries.map xmlEntry)
          ++ "\n</urlset>".data, log)

/-- The comparator of `sortSitemapEntries` (src/unnamed/part_003):
compare entries by `loc.split('/').filter(Boolean)` with the shared
comparator loop, index marker the empty segment (which `filter(Boolean)`
has already removed, leaving that rule to the length tie-break). -/
def sitemapEntriesCmp (a b : SitemapEntry) : Int :=
  cmpSegsWith (fun s => s = [])
    ((splitSlash a.loc).filter (fun s => s ≠ []))
    ((splitSlash b.loc).filter (fun s => s ≠ []))

/-- `sortSitemapEntries` (src/unnamed/part_003). -/
def sortSitemapEntries (entries : List SitemapEntry) : List SitemapEntry :=
  sortByCmp sitemapEntriesCmp entries

/-- `/^\(.*\)$/.test(name)`. -/
def parenTest (n : List Char) : Bool :=
  segStartsWith '(' n && segEndsWith ')' n

/-- The decomposition of `name` at position `i` against the regex
`^(.*)\+Page\.[^.]+$`: succeeds when the characters from `i` are
`+Page.` followed by a nonempty dot-free extension, yielding the
captured page name `name.take i`. -/
def suffixSplitAt (n : List Char) (i : Nat) : Option (List Char) :=
  let rest := n.drop i
  if ['+', 'P', 'a', 'g', 'e', '.'].isPrefixOf rest then
    let ext := rest.drop 6
    if ext.isEmpty || ext.any (fun c => c = '.') then none else some (n.take i)
  else none

/-- `name.match(/^(.*)\+Page\.[^.]+$/)` — the capture group of the
greedy match, i.e. the longest prefix admitting a valid decomposition. -/
def suffixMatch (n : List Char) : Option (List Char) :=
  ((List.range (n.length + 1)).filterMap (suffixSplitAt n)).getLast?

mutual
/-- One item of the legacy recursive walker `getSitemapEntries` of
src/unnamed/part_000 (first document): a `_`-prefixed directory is
pruned (`continue` before recursing), an `@`-prefixed directory sets the
`ignorePath` flag for its subtree, a parenthesized directory is kept out
of the route; a page is recognized by the suffix marker
`<name>+Page.<ext>` and emits
`loc = (baseUrl + "/" + routePath).replace(/\/+/g, '/')`.  Yields the
emitted locs (metadata attachment is the same external-stat step as in
the current variant). -/
def legacyEntriesTree (baseUrl : List Char) (ignorePath : Bool)
    (currentRouteSegments : List (List Char)) : FTree → List (List Char)
  | .dir n cs =>
    if segStartsWith '_' n then []
    else
      let isIgnoredDir := segStartsWith '@' n
      let newIgnorePath := ignorePath || isIgnoredDir
      let newRouteSegments :=
        if !isIgnoredDir && !parenTest n then currentRouteSegments ++ [n]
        else currentRouteSegments
      getSitemapEntriesLegacy baseUrl newIgnorePath newRouteSegments cs
  | .file n =>
    match suffixMatch n with
    | none => []
    | some pageName =>
      if ignorePath || (!pageName.isEmpty && segStartsWith '@' pageName) then []
      else
        let routeSegments :=
          if !pageName.isEmpty then currentRouteSegments ++ [pageName]
          else currentRouteSegments
        let routePath := List.intercalate ['/'] routeSegments
        let routePath := if routePath = indexSeg then [] else routePath
        [normalizeUrl baseUrl routePath]
def getSitemapEntriesLegacy (baseUrl : List Char) (ignorePath : Bool)
    (currentRouteSegments : List (List Char)) : FForest → List (List Char)
  | .nil => []
  | .cons t rest =>
    legacyEntriesTree baseUrl ignorePath currentRouteSegments t
      ++ getSitemapEntriesLegacy baseUrl ignorePath currentRouteSegments rest
end

/-- JavaScript whitespace as far as the robots template can exhibit it
(`String.prototype.trim` also strips `\v`, `\f` and Unicode space
separators; none changes any statement below). -/
def isJsWs (c : Char) : Bool :=
  c = ' ' || c = '\t' || c = '\n' || c = '\r'

/-- `String.prototype.trim`: drop leading and trailing whitespace,
nothing interior. -/
def trimWs (s : List Char) : List Char :=
  ((s.dropWhile isJsWs).reverse.dropWhile isJsWs).reverse

/-- The `robots` option block (`robots === false`, the disabled case,
simply skips the generator and is outside the content function). -/
structure RobotsOptions where
  userAgent : List Char
  disallowCloudflare : Bool

/-- `generateRobotsTxtContent` (src/src/generators/robots.ts):
`sitemapUrl = (baseUrl + "/" + filename).replace(/\/+/g, '/')`; the
template is `User-agent: ${ua}` newline, then the conditional
`Disallow: /cdn-cgi/` line (the empty string when the flag is off),
newline, then `Sitemap: ${sitemapUrl}`; the whole file is trimmed. -/
def generateRobotsTxtContent (baseUrl filename : List Char)
    (robots : RobotsOptions) : List Char :=
  let sitemapUrl := collapseSlashes (baseUrl ++ '/' :: filename)
  trimWs ("User-agent: ".data ++ robots.userAgent
    ++ '\n' :: (if robots.disallowCloudflare then "Disallow: /cdn-cgi/".data else [])
    ++ '\n' :: "Sitemap: ".data ++ sitemapUrl)

/-- `p` is a prefix of `s`. -/
def isPrefixList (p s : List Char) : Prop := ∃ t, p ++ t = s

/-- `s` contains an interior empty line: two consecutive newlines. -/
def containsEmptyLine (s : List Char) : Prop :=
  ∃ a b, s = a ++ '\n' :: '\n' :: b

/-- A segment the classifier treats as special: `_`- or `@`-prefixed. -/
def isSpecialSeg (s : List Char) : Bool :=
  segStartsWith '_' s || segStartsWith '@' s

/-! Concrete fixtures for the claim theorems: a base URL `http://x`,
the option defaults `weekly` / `0.5`, and small page trees. -/

/-- Options with base URL `http://x`, defaults `weekly`/`0.5`, no custom
entries, and the given policy and debug flags. -/
def mkOpts (policy : ClashingPathsResolutionType) (dbg : DebugOptions) : SitemapOptions :=
  { baseUrl := "http://x".data
    defaultChangefreq := "weekly".data
    defaultPriority := "0.5".data
    customEntries := []
    clashingPathsResolution := policy
    debug := dbg }

/-- Both debug flags off (the defaults). -/
def defaultDebug : DebugOptions := ⟨false, false⟩

/-- A lone root page `+Page.tsx` at the scan root. -/
def rootPageTree : FForest := forestOf [.file "+Page.tsx".data]

/-- The discovered entry for the root page under `mkOpts`. -/
def discoveredRootEntry : SitemapEntry :=
  ⟨"http://x/".data, none, some "weekly".data, some "0.5".data⟩

/-- Options for the C1 run: default options plus one custom entry whose
`loc` equals the discovered root entry's `loc`. -/
def c1Opts : SitemapOptions :=
  { mkOpts .ignore defaultDebug with
      customEntries := [⟨"http://x/".data, none, none, none⟩] }

/-- Two pages clashing on `/a/b/`: `a/b/+Page.tsx` and
`a/pages/b/+Page.tsx` (the `pages` segment is dropped). -/
def clashTree : FForest :=
  forestOf [.dir "a".data (forestOf
    [.dir "b".data (forestOf [.file "+Page.tsx".data]),
     .dir "pages".data (forestOf [.dir "b".data (forestOf [.file "+Page.tsx".data])])])]

/-- A page beneath the private directory `_drafts`. -/
def draftsTree : FForest :=
  forestOf [.dir "_drafts".data (forestOf [.file "+Page.tsx".data])]

/-- A page beneath the dynamic directory `@id`. -/
def atIdTree : FForest :=
  forestOf [.dir "@id".data (forestOf [.file "+Page.tsx".data])]

/-- A page beneath `_a/@b`: an `@`-prefixed ancestor preceded by an
underscore-prefixed one. -/
def underAtTree : FForest :=
  forestOf [.dir "_a".data (forestOf
    [.dir "@b".data (forestOf [.file "+Page.tsx".data])])]

/-- `(marketing)/about/+Page.tsx` in the current directory-marker
convention. -/
def marketingDirTree : FForest :=
  forestOf [.dir "(marketing)".data (forestOf
    [.dir "about".data (forestOf [.file "+Page.tsx".data])])]

/-- `(marketing)/about+Page.tsx` in the legacy suffix-marker
convention. -/
def marketingSuffixTree : FForest :=
  forestOf [.dir "(marketing)".data (forestOf [.file "about+Page.tsx".data])]

/-- A lone `index+Page.tsx` at the scan root. -/
def indexSuffixTree : FForest := forestOf [.file "index+Page.tsx".data]

/-! Helper lemmas about the classifier. -/

lemma segStartsWith_eq_true {c : Char} {s : List Char} (h : segStartsWith c s = true) :
    ∃ t, s = c :: t := by
  cases s with
  | nil => simp [segStartsWith] at h
  | cons a t =>
    simp only [segStartsWith, decide_eq_true_eq] at h
    exact ⟨t, by rw [h]⟩

lemma segAction_underscore (t : List Char) : segAction ('_' :: t) = .rejectSpecial := by
  simp [segAction, segStartsWith, indexSeg, pagesSeg]

lemma segAction_at (t : List Char) : segAction ('@' :: t) = .rejectSSG := by
  simp [segAction, segStartsWith, indexSeg, pagesSeg]

lemma segAction_paren {s : List Char} (h : parenTest s = true) : segAction s = .skip := by
  simp only [parenTest, Bool.and_eq_true] at h
  obtain ⟨t, rfl⟩ := segStartsWith_eq_true h.1
  simp [segAction, segStartsWith, indexSeg, pagesSeg, h.2]

lemma segAction_plain {s : List Char} (h₁ : segStartsWith '_' s = false)
    (h₂ : segStartsWith '@' s = false) :
    segAction s = .skip ∨ segAction s = .keep := by
  unfold segAction
  split
  · exact .inl rfl
  split
  · exact .inl rfl
  split
  · exact .inl rfl
  rw [h₁, h₂]
  simp

lemma resolveLoop_accepted_ne_nil :
    ∀ segs acc p, resolveLoop segs acc = .accepted p → p ≠ [] := by
  intro segs
  induction segs with
  | nil =>
    intro acc p h
    simp only [resolveLoop, Resolution.accepted.injEq] at h
    split at h <;> (cases h; simp)
  | cons s rest ih =>
    intro acc p h
    simp only [resolveLoop] at h
    cases hs : segAction s <;> rw [hs] at h <;> first
      | exact ih _ _ h
      | simp_all

lemma resolveLoop_underscore_rejected :
    ∀ segs acc, (∃ s ∈ segs, segStartsWith '_' s = true) →
      ∃ r, resolveLoop segs acc = .rejected r := by
  intro segs
  induction segs with
  | nil => intro acc h; simp at h
  | cons s rest ih =>
    intro acc h
    cases hs : segAction s
    case rejectSpecial => exact ⟨.specialFolder, by simp [resolveLoop, hs]⟩
    case rejectSSG => exact ⟨.SSGUnhandled, by simp [resolveLoop, hs]⟩
    case skip =>
      obtain ⟨x, hx, hxu⟩ := h
      rcases List.mem_cons.mp hx with rfl | hmem
      · obtain ⟨t, rfl⟩ := segStartsWith_eq_true hxu
        rw [segAction_underscore] at hs; cases hs
      · obtain ⟨r, hr⟩ := ih acc ⟨x, hmem, hxu⟩
        exact ⟨r, by simp [resolveLoop, hs, hr]⟩
    case keep =>
      obtain ⟨x, hx, hxu⟩ := h
      rcases List.mem_cons.mp hx with rfl | hmem
      · obtain ⟨t, rfl⟩ := segStartsWith_eq_true hxu
        rw [segAction_underscore] at hs; cases hs
      · obtain ⟨r, hr⟩ := ih (acc ++ [s]) ⟨x, hmem, hxu⟩
        exact ⟨r, by simp [resolveLoop, hs, hr]⟩

lemma resolveLoop_first_special_at :
    ∀ segs s acc, segs.find? isSpecialSeg = some s → segStartsWith '@' s = true →
      resolveLoop segs acc = .rejected .SSGUnhandled := by
  intro segs
  induction segs with
  | nil => intro s acc h; simp at h
  | cons a rest ih =>
    intro s acc hfind hat
    by_cases hsp : isSpecialSeg a = true
    · rw [List.find?_cons_of_pos _ hsp] at hfind
      injection hfind with he
      subst he
      obtain ⟨t, rfl⟩ := segStartsWith_eq_true hat
      simp [resolveLoop, segAction_at]
    · rw [List.find?_cons_of_neg _ (by simpa using hsp)] at hfind
      have h2 : segStartsWith '_' a = false ∧ segStartsWith '@' a = false := by
        simpa [isSpecialSeg] using hsp
      rcases segAction_plain h2.1 h2.2 with hs | hs <;>
        simp [resolveLoop, hs, ih _ _ hfind hat]

lemma resolveLoop_pages :
    ∀ xs ys acc, resolveLoop (xs ++ pagesSeg :: ys) acc = resolveLoop (xs ++ ys) acc := by
  intro xs
  induction xs with
  | nil =>
    intro ys acc
    have hp : segAction pagesSeg = .skip := by decide
    simp [resolveLoop, hp]
  | cons a rest ih =>
    intro ys acc
    simp only [List.cons_append, resolveLoop]
    cases hs : segAction a <;> simp [ih]

lemma resolveLoop_paren_cons {s : List Char} (h : parenTest s = true)
    (rest : List (List Char)) (acc : List (List Char)) :
    resolveLoop (s :: rest) acc = resolveLoop rest acc := by
  simp [resolveLoop, segAction_paren h]

/-! Helper lemmas about slash collapsing and trimming. -/

lemma collapseAux_true_head :
    ∀ s, segStartsWith '/' (collapseAux true s) = false := by
  intro s
  induction s with
  | nil => simp [collapseAux, segStartsWith]
  | cons c rest ih =>
    by_cases hc : c = '/'
    · subst hc; simpa [collapseAux] using ih
    · simp [collapseAux, hc, segStartsWith]

lemma hasDoubleSlash_collapseAux :
    ∀ s b, hasDoubleSlash (collapseAux b s) = false := by
  intro s
  induction s with
  | nil => intro b; simp [collapseAux, hasDoubleSlash]
  | cons c rest ih =>
    intro b
    by_cases hc : c = '/'
    · subst hc
      cases b with
      | true => simpa [collapseAux] using ih true
      | false =>
        simp only [collapseAux, if_pos rfl]
        cases hl : collapseAux true rest with
        | nil => simp [hasDoubleSlash]
        | cons x xs =>
          have hx : ¬ x = '/' := by
            have h0 := collapseAux_true_head rest
            rw [hl] at h0
            simpa [segStartsWith] using h0
          have := ih true
          rw [hl] at this
          simp [hasDoubleSlash, hx, this]
    · cases hl : collapseAux false rest with
      | nil => simp [collapseAux, hc, hl, hasDoubleSlash]
      | cons x xs =>
        have := ih false
        rw [hl] at this
        simp [collapseAux, hc, hl, hasDoubleSlash, this]

lemma collapseAux_cons_ne {c : Char} (hc : c ≠ '/') (b : Bool) (rest : List Char) :
    collapseAux b (c :: rest) = c :: collapseAux false rest := by
  simp [collapseAux, hc]

lemma collapseAux_noslash_prepend :
    ∀ s t b, (∀ c ∈ s, c ≠ '/') → s ≠ [] →
      collapseAux b (s ++ t) = s ++ collapseAux false t := by
  intro s
  induction s with
  | nil => intro t b _ h; cases h rfl
  | cons a s' ih =>
    intro t b hns _
    have ha : a ≠ '/' := hns a (List.mem_cons_self a s')
    cases s' with
    | nil => simp [collapseAux_cons_ne ha]
    | cons a2 s'' =>
      have h2 := ih t false (fun c hc => hns c (List.mem_cons_of_mem a hc)) (by simp)
      rw [List.cons_append, collapseAux_cons_ne ha, h2]
      rfl

lemma normalizeUrl_scheme_prefix (scheme host r : List Char)
    (hs : ∀ c ∈ scheme, c ≠ '/') (hh : ∀ c ∈ host, c ≠ '/') (hne : host ≠ []) :
    isPrefixList (scheme ++ ':' :: '/' :: host)
      (normalizeUrl (scheme ++ ':' :: '/' :: '/' :: host) r) := by
  unfold normalizeUrl collapseSlashes
  have h1 : (scheme ++ ':' :: '/' :: '/' :: host) ++ '/' :: r
      = (scheme ++ [':']) ++ '/' :: '/' :: (host ++ '/' :: r) := by simp
  have hns : ∀ c ∈ scheme ++ [':'], c ≠ '/' := by
    intro c hc
    rcases List.mem_append.mp hc with h | h
    · exact hs c h
    · simp at h; subst h; decide
  rw [h1, collapseAux_noslash_prepend (scheme ++ [':']) _ false hns (by simp)]
  have c1 : collapseAux false ('/' :: '/' :: (host ++ '/' :: r))
      = '/' :: collapseAux true (host ++ '/' :: r) := by
    simp [collapseAux]
  rw [c1, collapseAux_noslash_prepend host _ true hh hne]
  exact ⟨collapseAux false ('/' :: r), by simp⟩

lemma dropWhile_append_of_exists (p : Char → Bool) :
    ∀ l₁ l₂ : List Char, (∃ c ∈ l₁, p c = false) →
      List.dropWhile p (l₁ ++ l₂) = List.dropWhile p l₁ ++ l₂ := by
  intro l₁
  induction l₁ with
  | nil => intro l₂ h; simp at h
  | cons a l₁ ih =>
    intro l₂ h
    by_cases ha : p a = true
    · have hex : ∃ c ∈ l₁, p c = false := by
        obtain ⟨c, hc, hcf⟩ := h
        rcases List.mem_cons.mp hc with rfl | hmem
        · rw [ha] at hcf; cases hcf
        · exact ⟨c, hmem, hcf⟩
      simp [List.dropWhile_cons, ha, ih l₂ hex]
    · simp [List.dropWhile_cons, ha]

lemma trim_keeps_empty_line (A S : List Char)
    (hA : ∃ a A', A = a :: A' ∧ isJsWs a = false)
    (hS : ∃ c ∈ S, isJsWs c = false) :
    containsEmptyLine (trimWs (A ++ '\n' :: '\n' :: S)) := by
  obtain ⟨a, A', rfl, ha⟩ := hA
  unfold trimWs
  have d1 : List.dropWhile isJsWs ((a :: A') ++ '\n' :: '\n' :: S)
      = (a :: A') ++ '\n' :: '\n' :: S := by
    rw [List.cons_append, List.dropWhile_cons]
    simp [ha]
  rw [d1]
  have r1 : ((a :: A') ++ '\n' :: '\n' :: S).reverse
      = S.reverse ++ (['\n', '\n'] ++ (a :: A').reverse) := by
    simp
  rw [r1]
  have hSr : ∃ c ∈ S.reverse, isJsWs c = false := by
    obtain ⟨c, hc, hf⟩ := hS
    exact ⟨c, List.mem_reverse.mpr hc, hf⟩
  rw [dropWhile_append_of_exists isJsWs _ _ hSr]
  refine ⟨a :: A', (List.dropWhile isJsWs S.reverse).reverse, ?_⟩
  simp

/-! Claim theorems. -/

/-- C1: the claim says a custom entry whose `loc` equals a discovered
entry's `loc` is dropped with a warning and never duplicates a
discovered entry.  In the current `generateSitemapContent` the
`existingLocations` map starts empty and `getSitemapEntries` never
writes into it, so the clashing custom entry is appended: the final
entry list carries `http://x/` twice and no warning is logged — the
evaluation of the code at the failing input. -/
theorem claim1_code_bug_custom_duplicate_kept :
    generateSitemapEntriesLog c1Opts "pages".data rootPageTree
      = .ok ([discoveredRootEntry, ⟨"http://x/".data, none, none, none⟩], [])
    ∧ discoveredRootEntry.loc = "http://x/".data
    ∧ ((([discoveredRootEntry, ⟨"http://x/".data, none, none, none⟩] :
          List SitemapEntry).filter (fun e => e.loc = "http://x/".data)).length = 2) := by
  refine ⟨?_, ?_, ?_⟩ <;> rfl

/-- C2 counterexample: under the current resolver (the claim's cited
code) a root `index+Page.tsx` is not a page at all — `isIndexable`
requires the exact prefix `+Page.` — so it yields no entry, not
`loc = "http://x/"`; and under the legacy suffix-marker walker the same
file yields `"http:/x/"` (the `//` of the scheme is collapsed), not
`"http://x/"`. -/
theorem claim2_counterexample_root_index_marker :
    getSitemapEntries (mkOpts .ignore defaultDebug) "pages".data indexSuffixTree
      = .ok ([], [])
    ∧ getSitemapEntriesLegacy "http://x".data false [] indexSuffixTree
      = ["http:/x/".data]
    ∧ "http:/x/".data ≠ "http://x/".data := by
  refine ⟨?_, ?_, by decide⟩ <;> rfl

/-- C2 (amended): every accepted `urlPath` is non-empty; the scan-root
page (index marker `+Page.<ext>` in the current convention) classifies
to exactly `/`, and the emitted loc is exactly `baseUrl ++ "/"`:
`http://x/` for `baseUrl = "http://x"`. -/
theorem claim2_root_mapping_amended :
    (∀ segs p, resolveSegments segs = .accepted p → p ≠ [])
    ∧ resolveSegments [] = .accepted ['/']
    ∧ getSitemapEntries (mkOpts .ignore defaultDebug) "pages".data rootPageTree
        = .ok ([discoveredRootEntry], [])
    ∧ discoveredRootEntry.loc = "http://x".data ++ ['/'] := by
  refine ⟨fun segs p h => resolveLoop_accepted_ne_nil segs [] p h, by decide, by rfl, by rfl⟩

/-- C2 witness: the amended theorem applied to the root page's (empty)
segment list. -/
theorem claim2_root_mapping_witness : (['/'] : List Char) ≠ [] :=
  claim2_root_mapping_amended.1 [] ['/'] (by decide)

/-- C3: the claim says the `error` policy aborts with a fatal error
whose message names all clashing source paths, and that `ignore` keeps
the first member with a warning.  Evaluating the code: with
`debug.printRoutes = false` (the default) the thrown value is the empty
string — `message ?? getMessage()` never falls through because
`message` is `""`, not `null` — so no clashing path is named, and the
`ignore` warning is likewise only emitted when `debug.printRoutes` is
set.  The keep/drop behaviour itself matches the claim: `ignore` keeps
exactly the first member of the sorted group, `remove` drops the whole
group, `error` aborts so that `generateSitemapContent` produces no
document. -/
theorem claim3_code_bug_policy_behaviour :
    getSitemapEntries (mkOpts .ignore ⟨true, false⟩) "pages".data clashTree
      = .ok ([⟨"http://x/a/b/".data, none, some "weekly".data, some "0.5".data⟩],
          ["⚠️  Sitemap : Routes definition clash found -> [/a/b, /a/pages/b]: Still adding to sitemap.".data])
    ∧ getSitemapEntries (mkOpts .ignore defaultDebug) "pages".data clashTree
      = .ok ([⟨"http://x/a/b/".data, none, some "weekly".data, some "0.5".data⟩], [])
    ∧ getSitemapEntries (mkOpts .remove defaultDebug) "pages".data clashTree
      = .ok ([], [])
    ∧ getSitemapEntries (mkOpts .error defaultDebug) "pages".data clashTree
      = .error []
    ∧ generateSitemapContent (mkOpts .error defaultDebug) "pages".data clashTree
      = .error [] := by
  refine ⟨?_, ?_, ?_, ?_, ?_⟩ <;> rfl

/-- C4 counterexample: the claim says the walk never descends into or
classifies anything beneath an underscore-prefixed directory (pruned,
not filtered).  The current walker is one recursive
`fs.readdir(..., recursive: true)`: for `_drafts/+Page.tsx` it
enumerates the file beneath `_drafts` and classifies it (rejection
`specialFolder`) — filtering after enumeration, not pruning. -/
theorem claim4_counterexample_no_pruning :
    ("pages/_drafts".data, "+Page.tsx".data) ∈ readdirRec "pages".data draftsTree
    ∧ getResolvedPages "pages".data draftsTree
      = [⟨"/_drafts".data, ["_drafts".data], .rejected .specialFolder⟩] := by
  exact ⟨by decide, by rfl⟩

/-- C4 (amended): a file with any underscore-prefixed ancestor segment
is always rejected by the classifier and never appears in the output —
regardless of the diagnostic flags — but the subtree is enumerated and
classified rather than pruned. -/
theorem claim4_private_excluded_amended :
    (∀ segs acc, (∃ s ∈ segs, segStartsWith '_' s = true) →
        ∃ r, resolveLoop segs acc = .rejected r)
    ∧ getSitemapEntries (mkOpts .ignore defaultDebug) "pages".data draftsTree
        = .ok ([], [])
    ∧ getSitemapEntries (mkOpts .ignore ⟨true, true⟩) "pages".data draftsTree
        = .ok ([], []) := by
  exact ⟨resolveLoop_underscore_rejected, by rfl, by rfl⟩

/-- C4 witness: the amended theorem applied to the `_drafts` segment
list. -/
theorem claim4_private_excluded_witness :
    ∃ r, resolveLoop ["_drafts".data] [] = .rejected r :=
  claim4_private_excluded_amended.1 ["_drafts".data] []
    ⟨"_drafts".data, by decide, by decide⟩

/-- C5 counterexample: the claim says every page file reached through an
`@`-prefixed ancestor is rejected with reason `SSGUnhandled`.  For
`_a/@b/+Page.tsx` — reached through the `@`-prefixed ancestor `@b` —
the classifier hits the underscore segment first and rejects with
`specialFolder`, and with `printIgnored` set nothing at all is logged
(the `SSGUnhandled` branch is the only one that warns). -/
theorem claim5_counterexample_underscore_before_at :
    resolveSegments ["_a".data, "@b".data] = .rejected .specialFolder
    ∧ (Resolution.rejected .specialFolder ≠ .rejected .SSGUnhandled)
    ∧ getSitemapEntries (mkOpts .ignore ⟨false, true⟩) "pages".data underAtTree
        = .ok ([], []) := by
  exact ⟨by decide, by decide, by rfl⟩

/-- C5 (amended): a page file whose first special ancestor segment
(scanning from the root; `index`, `pages` and parenthesized segments are
transparent and never special) is `@`-prefixed is rejected with reason
`SSGUnhandled`; such a file is never emitted, and it is logged exactly
when `debug.printIgnored` is set. -/
theorem claim5_dynamic_rejection_amended :
    (∀ segs s, segs.find? isSpecialSeg = some s → segStartsWith '@' s = true →
        resolveSegments segs = .rejected .SSGUnhandled)
    ∧ getSitemapEntries (mkOpts .ignore ⟨false, true⟩) "pages".data atIdTree
        = .ok ([], [ssgWarnMessage "/@id".data])
    ∧ getSitemapEntries (mkOpts .ignore defaultDebug) "pages".data atIdTree
        = .ok ([], []) := by
  exact ⟨fun segs s h1 h2 => resolveLoop_first_special_at segs s [] h1 h2, by rfl, by rfl⟩

/-- C5 witness: the amended theorem applied to the `@id` segment
list. -/
theorem claim5_dynamic_rejection_witness :
    resolveSegments ["@id".data] = .rejected .SSGUnhandled :=
  claim5_dynamic_rejection_amended.1 ["@id".data] "@id".data (by decide) (by decide)

/-- C6 counterexample: the claim says the sorter is a total order
(a strict weak ordering, stable only for character-identical paths).
`resolvedPagesSorter` compares a path ending in the `index` segment as
strictly before itself (the comparator returns `-1` on identical
arguments, so `a < a`), and `sitemapEntriesCmp` returns `0` on the
distinct locs `/a/` and `/a` — neither comparator is a strict weak
ordering equating exactly the character-identical paths. -/
theorem claim6_counterexample_not_strict_weak_order :
    resolvedPagesSorter ⟨"/index".data, [indexSeg], resolveSegments [indexSeg]⟩
        ⟨"/index".data, [indexSeg], resolveSegments [indexSeg]⟩ = -1
    ∧ sitemapEntriesCmp ⟨"/a/".data, none, none, none⟩ ⟨"/a".data, none, none, none⟩ = 0
    ∧ "/a/".data ≠ "/a".data := by
  exact ⟨by decide, by decide, by decide⟩

/-- C6 (amended): the sorter places index first, `@`-prefixed segments
next, then locale-alphabetical order with the shorter path first on a
tie — sorting the classified paths `/zebra`, `/`, `/@id`, `/alpha`
yields `/`, `/@id`, `/alpha`, `/zebra` — but it is not a strict weak
ordering stable exactly on character-identical paths. -/
theorem claim6_sort_fixture_amended :
    sortSitemapEntries
      [⟨"/zebra".data, none, none, none⟩, ⟨"/".data, none, none, none⟩,
       ⟨"/@id".data, none, none, none⟩, ⟨"/alpha".data, none, none, none⟩]
    = [⟨"/".data, none, none, none⟩, ⟨"/@id".data, none, none, none⟩,
       ⟨"/alpha".data, none, none, none⟩, ⟨"/zebra".data, none, none, none⟩] := by
  rfl

/-- C7 counterexample: the claim says `(marketing)/about+Page.tsx`
yields `loc` exactly `baseUrl ++ "/about"`.  Under the legacy
suffix-marker walker (the convention in which that file is a page) the
loc is `"http:/x/about"` — the slash-collapsing normalization also
collapses the `//` of the scheme — which differs from
`"http://x" ++ "/about"`. -/
theorem claim7_counterexample_grouping_loc :
    getSitemapEntriesLegacy "http://x".data false [] marketingSuffixTree
      = ["http:/x/about".data]
    ∧ "http:/x/about".data ≠ "http://x".data ++ "/about".data := by
  exact ⟨by rfl, by decide⟩

/-- C7 (amended): a parenthesized segment contributes nothing to the
resolved URL path while its children are classified normally; under the
current resolver `(marketing)/about/+Page.tsx` resolves to `/about/`
and `loc = baseUrl ++ "/about/"` (trailing slash), while the legacy
suffix-marker walker emits the collapsed `http:/x/about`. -/
theorem claim7_grouping_transparent_amended :
    (∀ s rest acc, parenTest s = true → resolveLoop (s :: rest) acc = resolveLoop rest acc)
    ∧ resolveSegments ["(marketing)".data, "about".data] = .accepted "/about/".data
    ∧ getSitemapEntries (mkOpts .ignore defaultDebug) "pages".data marketingDirTree
        = .ok ([⟨"http://x/about/".data, none, some "weekly".data, some "0.5".data⟩], []) := by
  exact ⟨fun s rest acc h => resolveLoop_paren_cons h rest acc, by decide, by rfl⟩

/-- C7 witness: the amended theorem's grouping-transparency part applied
to the segment `(m)`. -/
theorem claim7_grouping_transparent_witness :
    resolveLoop ["(m)".data, "about".data] [] = resolveLoop ["about".data] [] :=
  claim7_grouping_transparent_amended.1 "(m)".data ["about".data] [] (by decide)

/-- C8: `normalizeUrl` output never contains two consecutive slashes —
the collapse also applies inside the scheme separator, so for any
`baseUrl` of the form `scheme://host` (no slash in scheme or host) and
any route, the produced loc starts with `scheme:/host`, single slash. -/
theorem claim8_collapse_scheme :
    (∀ b r, hasDoubleSlash (normalizeUrl b r) = false)
    ∧ (∀ scheme host r, (∀ c ∈ scheme, c ≠ '/') → (∀ c ∈ host, c ≠ '/') → host ≠ [] →
        isPrefixList (scheme ++ ':' :: '/' :: host)
          (normalizeUrl (scheme ++ ':' :: '/' :: '/' :: host) r)) := by
  constructor
  · intro b r
    exact hasDoubleSlash_collapseAux (b ++ '/' :: r) false
  · intro scheme host r hs hh hne
    exact normalizeUrl_scheme_prefix scheme host r hs hh hne

/-- C8 witness: `baseUrl = "http://x"`, route `about` — the loc starts
with `http:/x`. -/
theorem claim8_collapse_scheme_witness :
    isPrefixList ("http".data ++ ':' :: '/' :: "x".data)
      (normalizeUrl ("http".data ++ ':' :: '/' :: '/' :: "x".data) "about".data) :=
  claim8_collapse_scheme.2 "http".data "x".data "about".data
    (by decide) (by decide) (by decide)

/-- C9: the resolver drops every directory segment exactly equal to
`pages` at any depth: classifying `xs ++ ["pages"] ++ ys` equals
classifying `xs ++ ys`, so a page under `a/pages/b` resolves to the
same URL path as one under `a/b`. -/
theorem claim9_pages_segment_dropped (xs ys : List (List Char)) :
    resolveSegments (xs ++ pagesSeg :: ys) = resolveSegments (xs ++ ys) :=
  resolveLoop_pages xs ys []

/-- C10: with robots enabled and the cloudflare flag off, the robots
document keeps an interior empty line between the `User-agent:` line
and the `Sitemap:` line — the conditional `Disallow` line becomes the
empty string and `trim` only strips the ends — for every user agent,
base URL and filename; concretely, `http://x` and `sitemap.xml` give
`User-agent: *`, an empty line, then `Sitemap: http:/x/sitemap.xml`. -/
theorem claim10_robots_interior_empty_line :
    (∀ userAgent baseUrl filename : List Char,
        containsEmptyLine (generateRobotsTxtContent baseUrl filename ⟨userAgent, false⟩))
    ∧ generateRobotsTxtContent "http://x".data "sitemap.xml".data ⟨['*'], false⟩
        = "User-agent: *\n\nSitemap: http:/x/sitemap.xml".data := by
  constructor
  · intro ua b f
    have e : generateRobotsTxtContent b f ⟨ua, false⟩
        = trimWs (("User-agent: ".data ++ ua)
            ++ '\n' :: '\n' :: ("Sitemap: ".data ++ collapseSlashes (b ++ '/' :: f))) := by
      simp [generateRobotsTxtContent]
    rw [e]
    exact trim_keeps_empty_line _ _
      ⟨'U', "ser-agent: ".data ++ ua, rfl, by decide⟩
      ⟨'S', List.mem_append_left _ (by decide), by decide⟩
  · rfl

end VikeSitemap
